import Mathlib

/-!
Verification of the cp-fs utility: a directory scanner that collects text-file
contents into one aggregated document.

Paths are modelled as lists of components (`List String`); the platform's
path-separator used when a path is rendered to a string is an explicit
parameter `sep`.  External collaborators (the glob engine, the content
classifier, the clipboard sink, the directory walker) appear as parameters or
as explicit input data; the repository's own logic is translated function by
function from `src/main.rs`.
-/

namespace CpFs

/-- Result of the external content classifier (the `content_inspector` crate's
`ContentType`). -/
inductive ContentType where
  | BINARY
  | UTF_8
  | UTF_8_BOM
  | UTF_16LE
  | UTF_16BE
  | UTF_32LE
  | UTF_32BE
deriving DecidableEq, Repr

/-- `is_text_file` from `src/main.rs`: only `UTF_8`, `UTF_16LE` and `UTF_16BE`
count as text.  The classifier `inspect` is an external collaborator and is
passed in as a function. -/
def is_text_file (inspect : List Nat → ContentType) (content : List Nat) : Bool :=
  match inspect content with
  | ContentType.UTF_8 => true
  | ContentType.UTF_16LE => true
  | ContentType.UTF_16BE => true
  | _ => false

/-- A compiled glob pattern of the external `glob` crate, modelled by its
matching function `Pattern::matches`. -/
structure GlobPattern where
  matchFn : String → Bool

/-- The `IgnorePatterns` struct: a set of exact-match strings (a `HashSet` in
the source, modelled as a duplicate-free list) plus a list of compiled glob
patterns. -/
structure IgnorePatterns where
  exact_matches : List String
  glob_patterns : List GlobPattern

/-- `IgnorePatterns::new`. -/
def IgnorePatterns.new : IgnorePatterns :=
  { exact_matches := [], glob_patterns := [] }

/-- `HashSet::insert` on the exact-match set: add the string when absent. -/
def insertSet (l : List String) (x : String) : List String :=
  if l.contains x then l else l ++ [x]

/-- The glob-metacharacter test of `IgnorePatterns::add_pattern`:
`pattern.contains('*') || pattern.contains('?') || pattern.contains('[')`. -/
def containsGlobChar (pattern : String) : Bool :=
  pattern.data.contains '*' || pattern.data.contains '?' || pattern.data.contains '['

/-- `IgnorePatterns::add_pattern`.  `compile` is the external
`glob::Pattern::new`; a failed compilation is reported (the returned
`Option String` is the warning written to stderr) and the pattern is dropped.
Returns the updated rule set together with the optional warning. -/
def IgnorePatterns.add_pattern (compile : String → Except String GlobPattern)
    (self : IgnorePatterns) (pattern : String) : IgnorePatterns × Option String :=
  if containsGlobChar pattern then
    match compile pattern with
    | Except.ok glob_pattern =>
        ({ self with glob_patterns := self.glob_patterns ++ [glob_pattern] }, none)
    | Except.error e =>
        (self, some ("Invalid glob pattern " ++ pattern ++ ": " ++ e))
  else
    ({ self with exact_matches := insertSet self.exact_matches pattern }, none)

/-- `IgnorePatterns::should_ignore`: exact containment first, then each glob in
order. -/
def IgnorePatterns.should_ignore (self : IgnorePatterns) (path_str : String) : Bool :=
  if self.exact_matches.contains path_str then true
  else self.glob_patterns.any (fun pattern => pattern.matchFn path_str)

/-- `Path::to_string_lossy` on a path built from components: the components
joined with the platform's separator `sep`. -/
def pathToString (sep : String) (components : List String) : String :=
  String.intercalate sep components

/-- `Path::strip_prefix`: succeed with the remaining components exactly when
`base` is a component-wise prefix. -/
def stripPrefixList (path base : List String) : Option (List String) :=
  if base.isPrefixOf path then some (path.drop base.length) else none

/-- Helper for `Path::ancestors`, recursing over the reversed component
list so the recursion is structural. -/
def ancestorsRev : List String → List (List String)
  | [] => [[]]
  | x :: xs => (x :: xs).reverse :: ancestorsRev xs

/-- `Path::ancestors`: the path itself, then each parent, ending with the
empty path. -/
def ancestorsList (p : List String) : List (List String) :=
  ancestorsRev p.reverse

/-- The ancestor loop of `should_ignore_file`: walk the ancestors, stop at
`base_path`, and test each ancestor's final component. -/
def ancestor_loop (ignore_patterns : IgnorePatterns) (base_path : List String) :
    List (List String) → Bool
  | [] => false
  | ancestor :: rest =>
    if ancestor == base_path then false
    else
      match ancestor.getLast? with
      | some dir_name =>
          if ignore_patterns.should_ignore dir_name then true
          else ancestor_loop ignore_patterns base_path rest
      | none => ancestor_loop ignore_patterns base_path rest

/-- The component loop of `should_ignore_file`: rebuild the relative path one
component at a time (`current.push(component)`) and test each prefix. -/
def prefix_loop (sep : String) (ignore_patterns : IgnorePatterns)
    (current : List String) : List String → Bool
  | [] => false
  | component :: rest =>
    if ignore_patterns.should_ignore (pathToString sep (current ++ [component])) then true
    else prefix_loop sep ignore_patterns (current ++ [component]) rest

/-- `should_ignore_file` from `src/main.rs`: test the leaf name, then every
ancestor up to (excluding) the scan root, then the full relative path, then
every relative-path prefix. -/
def should_ignore_file (sep : String) (path base_path : List String)
    (ignore_patterns : IgnorePatterns) : Bool :=
  if (match path.getLast? with
      | some file_name => ignore_patterns.should_ignore file_name
      | none => false) then true
  else if ancestor_loop ignore_patterns base_path (ancestorsList path) then true
  else
    match stripPrefixList path base_path with
    | some relative_path =>
      if ignore_patterns.should_ignore (pathToString sep relative_path) then true
      else prefix_loop sep ignore_patterns [] relative_path
    | none => false

/-- The built-in `IGNORED_FILES` list from `src/main.rs`. -/
def IGNORED_FILES : List String :=
  ["yarn.lock", "Cargo.lock", "pnpm-lock.yaml", "package-lock.json",
   ".DS_Store", "thumbs.db", ".env", ".env.local", ".env.development",
   ".env.production", "node_modules", "target", "dist", "build",
   "LICENSE.md", "LICENSE"]

/-- The rule-set construction in `main`: fold `add_pattern` over the built-in
list followed by the user-supplied patterns, accumulating the warnings. -/
def buildIgnorePatterns (compile : String → Except String GlobPattern)
    (user : List String) : IgnorePatterns × List String :=
  (IGNORED_FILES ++ user).foldl
    (fun acc p =>
      let r := IgnorePatterns.add_pattern compile acc.1 p
      (r.1, acc.2 ++ r.2.toList))
    (IgnorePatterns.new, [])

/-- Is a byte a UTF-8 continuation byte (`0x80..=0xBF`)? -/
def isCont (b : Nat) : Bool :=
  decide (0x80 ≤ b) && decide (b ≤ 0xBF)

/-- Admissible second byte of a three-byte UTF-8 sequence headed by `b0`
(the ranges of the WHATWG/Rust UTF-8 acceptance automaton). -/
def valid3b1 (b0 b1 : Nat) : Bool :=
  if b0 == 0xE0 then decide (0xA0 ≤ b1) && decide (b1 ≤ 0xBF)
  else if b0 == 0xED then decide (0x80 ≤ b1) && decide (b1 ≤ 0x9F)
  else isCont b1

/-- Admissible second byte of a four-byte UTF-8 sequence headed by `b0`. -/
def valid4b1 (b0 b1 : Nat) : Bool :=
  if b0 == 0xF0 then decide (0x90 ≤ b1) && decide (b1 ≤ 0xBF)
  else if b0 == 0xF4 then decide (0x80 ≤ b1) && decide (b1 ≤ 0x8F)
  else isCont b1

/-- Decode one UTF-8 sequence starting at byte `b0` with the following bytes
in `rest`.  Returns the decoded scalar value (`none` on an ill-formed
sequence) and how many bytes are consumed: on an error the consumed count is
the length of the maximal valid prefix of the sequence (at least one byte),
matching the substitution-of-maximal-subparts policy of Rust's
`String::from_utf8_lossy`. -/
def utf8DecodeStep (b0 : Nat) (rest : List Nat) : Option Nat × Nat :=
  if b0 < 0x80 then (some b0, 1)
  else if b0 < 0xC2 then (none, 1)
  else if b0 ≤ 0xDF then
    match rest with
    | [] => (none, 1)
    | b1 :: _ =>
      if isCont b1 then (some ((b0 - 0xC0) * 0x40 + (b1 - 0x80)), 2)
      else (none, 1)
  else if b0 ≤ 0xEF then
    match rest with
    | [] => (none, 1)
    | b1 :: rest1 =>
      if valid3b1 b0 b1 then
        match rest1 with
        | [] => (none, 2)
        | b2 :: _ =>
          if isCont b2 then
            (some ((b0 - 0xE0) * 0x1000 + (b1 - 0x80) * 0x40 + (b2 - 0x80)), 3)
          else (none, 2)
      else (none, 1)
  else if b0 ≤ 0xF4 then
    match rest with
    | [] => (none, 1)
    | b1 :: rest1 =>
      if valid4b1 b0 b1 then
        match rest1 with
        | [] => (none, 2)
        | b2 :: rest2 =>
          if isCont b2 then
            match rest2 with
            | [] => (none, 3)
            | b3 :: _ =>
              if isCont b3 then
                (some ((b0 - 0xF0) * 0x40000 + (b1 - 0x80) * 0x1000 +
                       (b2 - 0x80) * 0x40 + (b3 - 0x80)), 4)
              else (none, 3)
          else (none, 2)
      else (none, 1)
  else (none, 1)

/-- The character emitted for one decode step: the decoded scalar, or the
replacement character U+FFFD for an ill-formed sequence. -/
def charOfStep : Option Nat → Char
  | some v => Char.ofNat v
  | none => '�'

/-- Fuel-indexed worker for `from_utf8_lossy`; the fuel bounds the number of
emitted characters. -/
def lossyGo : Nat → List Nat → List Char
  | 0, _ => []
  | _, [] => []
  | fuel + 1, b0 :: rest =>
    let s := utf8DecodeStep b0 rest
    charOfStep s.1 :: lossyGo fuel (rest.drop (s.2 - 1))

/-- `String::from_utf8_lossy` on a byte buffer: UTF-8 decoding where each
maximal ill-formed subpart becomes one U+FFFD. -/
def from_utf8_lossy (bytes : List Nat) : String :=
  String.mk (lossyGo bytes.length bytes)

/-- The UTF-8 encoding of one scalar value (what a text editor writes for a
character when the file is saved as UTF-8; mirrors `String.utf8EncodeChar`). -/
def utf8EncodeChar (c : Char) : List Nat :=
  let v := c.toNat
  if v < 0x80 then [v]
  else if v < 0x800 then [0xC0 + v / 0x40, 0x80 + v % 0x40]
  else if v < 0x10000 then
    [0xE0 + v / 0x1000, 0x80 + v / 0x40 % 0x40, 0x80 + v % 0x40]
  else
    [0xF0 + v / 0x40000, 0x80 + v / 0x1000 % 0x40, 0x80 + v / 0x40 % 0x40,
     0x80 + v % 0x40]

/-- The UTF-8 encoding of a character sequence. -/
def utf8EncodeList (s : List Char) : List Nat :=
  s.flatMap utf8EncodeChar

/-- Group a byte list into little-endian 16-bit code units; a dangling odd
byte becomes a replacement unit. -/
def utf16leUnits : List Nat → List Nat
  | [] => []
  | [_] => [0xFFFD]
  | lo :: hi :: rest => (hi * 0x100 + lo) :: utf16leUnits rest

/-- Combine 16-bit code units into characters, pairing surrogates and
replacing unpaired surrogates with U+FFFD. -/
def utf16Chars : List Nat → List Char
  | [] => []
  | [u] =>
    if decide (0xD800 ≤ u) && decide (u < 0xE000) then ['�']
    else [Char.ofNat u]
  | u :: u2 :: rest =>
    if decide (0xD800 ≤ u) && decide (u < 0xDC00) then
      if decide (0xDC00 ≤ u2) && decide (u2 < 0xE000) then
        Char.ofNat (0x10000 + (u - 0xD800) * 0x400 + (u2 - 0xDC00)) :: utf16Chars rest
      else '�' :: utf16Chars (u2 :: rest)
    else if decide (0xDC00 ≤ u) && decide (u < 0xE000) then
      '�' :: utf16Chars (u2 :: rest)
    else Char.ofNat u :: utf16Chars (u2 :: rest)

/-- The character content a UTF-16 little-endian file actually denotes (used
to compare against what the program embeds in its output). -/
def utf16le_decode (bytes : List Nat) : List Char :=
  utf16Chars (utf16leUnits bytes)

/-- One item yielded by the external ignore-aware walker (`ignore::Walk`):
either a per-entry iteration error or an entry carrying its path, whether it
is a regular file, and the outcome of reading its bytes (`fs::read`). -/
inductive WalkItem where
  | err (msg : String)
  | entry (path : List String) (is_file : Bool) (content : Except String (List Nat))

/-- The mutable state of the walk loop in `main`: the output document, the
set of accepted relative paths (insertion-ordered), and the messages written
to stderr. -/
structure LoopState where
  output : String
  files : List String
  logs : List String
deriving Repr

/-- One iteration of the walk loop in `main`, translated branch by branch:
iteration errors and read errors are logged and skipped, non-files and
ignored paths are skipped silently, non-text content is skipped silently,
and an accepted file appends its formatted record and registers its relative
path. -/
def processItem (sep : String) (inspect : List Nat → ContentType)
    (ignore_patterns : IgnorePatterns) (base : List String)
    (st : LoopState) : WalkItem → LoopState
  | WalkItem.err msg =>
    { st with logs := st.logs ++ ["Error accessing entry: " ++ msg] }
  | WalkItem.entry path is_file content =>
    if !is_file then st
    else if should_ignore_file sep path base ignore_patterns then st
    else
      match content with
      | Except.error e =>
        { st with logs := st.logs ++
            ["Error reading file " ++ pathToString sep path ++ ": " ++ e] }
      | Except.ok bytes =>
        if !is_text_file inspect bytes then st
        else
          let content_str := from_utf8_lossy bytes
          match stripPrefixList path base with
          | none =>
            { st with logs := st.logs ++ ["Error getting relative path"] }
          | some rel =>
            let relative_path := pathToString sep rel
            { st with
              output := st.output ++ "---\n" ++ ("file: " ++ relative_path ++ "\n")
                        ++ "---\n\n" ++ content_str ++ "\n\n",
              files := insertSet st.files relative_path }

/-- The whole walk loop of `main`. -/
def runWalk (sep : String) (inspect : List Nat → ContentType)
    (ignore_patterns : IgnorePatterns) (base : List String)
    (items : List WalkItem) (st : LoopState) : LoopState :=
  items.foldl (processItem sep inspect ignore_patterns base) st

/-- The parsed CLI arguments (`Args`): the scan root and the extra ignore
patterns. -/
structure Args where
  path : List String
  ignore : List String

/-- What a completed run produces: the assembled document, the accepted
relative paths, and everything written to stderr. -/
structure RunResult where
  output : String
  files : List String
  logs : List String

/-- `main`, with the fallible external collaborators explicit: `parsed` is
the outcome of CLI parsing, `clipboard_new` of `Clipboard::new()`, and
`set_text` of `Clipboard::set_text` on the assembled document.  The `?`
operators on the clipboard calls propagate those failures; nothing else can
fail. -/
def mainRun (compile : String → Except String GlobPattern)
    (inspect : List Nat → ContentType) (sep : String)
    (parsed : Except String Args) (clipboard_new : Except String Unit)
    (set_text : String → Except String Unit)
    (items : List WalkItem) : Except String RunResult :=
  match parsed with
  | Except.error e => Except.error e
  | Except.ok args =>
    let built := buildIgnorePatterns compile args.ignore
    let st := runWalk sep inspect built.1 args.path items
      { output := "", files := [], logs := built.2 }
    match clipboard_new with
    | Except.error e => Except.error e
    | Except.ok _ =>
      match set_text st.output with
      | Except.error e => Except.error e
      | Except.ok _ =>
        Except.ok { output := st.output, files := st.files, logs := st.logs }

/-- The path carried by a walk item, when it has one. -/
def itemPath : WalkItem → Option (List String)
  | WalkItem.err _ => none
  | WalkItem.entry path _ _ => some path

/-- All conditions under which one walk item contributes a record to the
output document. -/
def acceptsItem (sep : String) (inspect : List Nat → ContentType)
    (ignore_patterns : IgnorePatterns) (base : List String) : WalkItem → Bool
  | WalkItem.err _ => false
  | WalkItem.entry path is_file content =>
    is_file && !should_ignore_file sep path base ignore_patterns &&
    (match content with
     | Except.error _ => false
     | Except.ok bytes =>
       is_text_file inspect bytes && (stripPrefixList path base).isSome)

/-- The record an accepted walk item appends to the output document (the
empty string for a non-accepted item). -/
def recordOfItem (sep : String) (base : List String) : WalkItem → String
  | WalkItem.err _ => ""
  | WalkItem.entry path _ content =>
    match content with
    | Except.error _ => ""
    | Except.ok bytes =>
      match stripPrefixList path base with
      | none => ""
      | some rel =>
        "---\n" ++ ("file: " ++ pathToString sep rel ++ "\n") ++ "---\n\n"
          ++ from_utf8_lossy bytes ++ "\n\n"

/-- The nonempty prefixes of a component list, shortest first. -/
def prefixesOf : List String → List (List String)
  | [] => []
  | c :: rest => [c] :: (prefixesOf rest).map (fun p => c :: p)

/-- The strings `should_ignore_file` tests for a file at relative path `rel`:
every component (the leaf name and every ancestor directory name) together
with every rendered relative-path prefix (the full relative path included). -/
def shapeStrings (sep : String) (rel : List String) : List String :=
  rel ++ (prefixesOf rel).map (pathToString sep)

theorem isPrefixOf_append_self (base rel : List String) :
    base.isPrefixOf (base ++ rel) = true := by
  induction base with
  | nil => simp [List.isPrefixOf]
  | cons a as ih => simp [List.isPrefixOf, ih]

theorem stripPrefixList_append (base rel : List String) :
    stripPrefixList (base ++ rel) base = some rel := by
  simp [stripPrefixList, isPrefixOf_append_self, List.drop_left]

theorem ancestorsList_concat (l : List String) (x : String) :
    ancestorsList (l ++ [x]) = (l ++ [x]) :: ancestorsList l := by
  simp [ancestorsList, ancestorsRev, List.reverse_append]

theorem ancestor_loop_base (ip : IgnorePatterns) (base : List String) :
    ancestor_loop ip base (ancestorsList base) = false := by
  induction base using List.reverseRecOn with
  | nil => simp [ancestorsList, ancestorsRev, ancestor_loop]
  | append_singleton l x _ => rw [ancestorsList_concat]; simp [ancestor_loop]

theorem ancestor_loop_eq (ip : IgnorePatterns) (base : List String) :
    ∀ rel : List String,
      ancestor_loop ip base (ancestorsList (base ++ rel)) = rel.any ip.should_ignore := by
  intro rel
  induction rel using List.reverseRecOn with
  | nil => simpa using ancestor_loop_base ip base
  | append_singleton l x ih =>
    rw [← List.append_assoc, ancestorsList_concat]
    have hne : (((base ++ l) ++ [x]) == base) = false := by
      rw [beq_eq_false_iff_ne]
      intro hEq
      have := congrArg List.length hEq
      simp at this
    simp only [ancestor_loop, hne, Bool.false_eq_true, if_false,
      List.getLast?_concat]
    cases hx : ip.should_ignore x with
    | true => simp [hx, List.any_append]
    | false => simp [hx, List.any_append, ih]

theorem prefix_loop_eq (sep : String) (ip : IgnorePatterns) :
    ∀ (l cur : List String),
      prefix_loop sep ip cur l =
        (prefixesOf l).any (fun p => ip.should_ignore (pathToString sep (cur ++ p))) := by
  intro l
  induction l with
  | nil => intro cur; simp [prefix_loop, prefixesOf]
  | cons c rest ih =>
    intro cur
    simp only [prefix_loop, prefixesOf, List.any_cons, List.any_map]
    cases hc : ip.should_ignore (pathToString sep (cur ++ [c])) with
    | true => simp [hc]
    | false =>
      simp only [hc, Bool.false_eq_true, if_false, Bool.false_or]
      rw [ih (cur ++ [c])]
      simp only [Function.comp_def, List.append_assoc, List.singleton_append]

theorem anyMapEq (l : List (List String)) (f : List String → String) (p : String → Bool) :
    ((l.map f).any p) = l.any (fun x => p (f x)) := by
  induction l with
  | nil => rfl
  | cons a as ih => simp [List.any_cons, ih]

theorem mem_prefixesOf_self : ∀ (rel : List String), rel ≠ [] → rel ∈ prefixesOf rel := by
  intro rel
  induction rel with
  | nil => intro h; cases h rfl
  | cons c rest ih =>
    intro _
    by_cases hr : rest = []
    · subst hr; simp [prefixesOf]
    · have hmem : rest ∈ prefixesOf rest := ih hr
      simp only [prefixesOf, List.mem_cons, List.mem_map]
      exact Or.inr ⟨rest, hmem, rfl⟩

/-- The central characterisation of `should_ignore_file` for a path under the
scan root: it holds exactly when some tested shape string is matched by the
rule set. -/
theorem should_ignore_file_eq (sep : String) (ip : IgnorePatterns)
    (base rel : List String) (h : rel ≠ []) :
    should_ignore_file sep (base ++ rel) base ip =
      (shapeStrings sep rel).any ip.should_ignore := by
  have hlast : (base ++ rel).getLast? = some (rel.getLast h) := by
    rw [List.getLast?_append_of_ne_nil _ h, List.getLast?_eq_getLast _ h]
  unfold should_ignore_file
  rw [stripPrefixList_append]
  simp only [hlast, ancestor_loop_eq, prefix_loop_eq, List.nil_append]
  have hmem₁ : rel.getLast h ∈ rel := List.getLast_mem h
  have hmem₂ : rel ∈ prefixesOf rel := mem_prefixesOf_self rel h
  cases hA : ip.should_ignore (rel.getLast h) with
  | true =>
    have hB : rel.any ip.should_ignore = true := List.any_eq_true.mpr ⟨_, hmem₁, hA⟩
    simp [hA, hB, shapeStrings, List.any_append]
  | false =>
    cases hB : rel.any ip.should_ignore with
    | true => simp [hA, hB, shapeStrings, List.any_append]
    | false =>
      cases hC : ip.should_ignore (pathToString sep rel) with
      | true =>
        simp [hA, hB, hC, shapeStrings, List.any_append, List.any_eq_true]
        exact ⟨rel, hmem₂, hC⟩
      | false =>
        simp only [hA, hB, hC, Bool.false_eq_true, if_false, Bool.false_or,
          shapeStrings, List.any_append]
        rw [anyMapEq]

theorem insertSet_contains_self (l : List String) (x : String) :
    (insertSet l x).contains x = true := by
  unfold insertSet
  split
  · assumption
  · simp [List.contains, List.elem_eq_mem]

theorem insertSet_contains_mono (l : List String) (x s : String)
    (h : l.contains s = true) : (insertSet l x).contains s = true := by
  unfold insertSet
  split
  · exact h
  · simp only [List.contains, List.elem_eq_mem, decide_eq_true_eq] at h ⊢
    exact List.mem_append_left _ h

theorem add_pattern_exact_mono (compile : String → Except String GlobPattern)
    (ip : IgnorePatterns) (p s : String)
    (h : ip.exact_matches.contains s = true) :
    ((IgnorePatterns.add_pattern compile ip p).1).exact_matches.contains s = true := by
  unfold IgnorePatterns.add_pattern
  split
  · split <;> exact h
  · exact insertSet_contains_mono _ _ _ h

theorem add_pattern_exact_self (compile : String → Except String GlobPattern)
    (ip : IgnorePatterns) (p : String) (hp : containsGlobChar p = false) :
    ((IgnorePatterns.add_pattern compile ip p).1).exact_matches.contains p = true := by
  unfold IgnorePatterns.add_pattern
  rw [hp]
  simp only [Bool.false_eq_true, if_false]
  exact insertSet_contains_self _ _

theorem foldl_exact_mono (compile : String → Except String GlobPattern)
    (s : String) :
    ∀ (ps : List String) (acc : IgnorePatterns × List String),
      acc.1.exact_matches.contains s = true →
      ((ps.foldl (fun acc p =>
          let r := IgnorePatterns.add_pattern compile acc.1 p
          (r.1, acc.2 ++ r.2.toList)) acc).1).exact_matches.contains s = true := by
  intro ps
  induction ps with
  | nil => intro acc h; exact h
  | cons p rest ih =>
    intro acc h
    exact ih _ (add_pattern_exact_mono compile acc.1 p s h)

theorem foldl_exact_mem (compile : String → Except String GlobPattern)
    (E : String) (hG : containsGlobChar E = false) :
    ∀ (ps : List String) (acc : IgnorePatterns × List String), E ∈ ps →
      ((ps.foldl (fun acc p =>
          let r := IgnorePatterns.add_pattern compile acc.1 p
          (r.1, acc.2 ++ r.2.toList)) acc).1).exact_matches.contains E = true := by
  intro ps
  induction ps with
  | nil => intro acc h; cases h
  | cons p rest ih =>
    intro acc hmem
    rcases List.mem_cons.mp hmem with hEq | hrest
    · subst hEq
      exact foldl_exact_mono compile E rest _
        (add_pattern_exact_self compile acc.1 E hG)
    · exact ih _ hrest

theorem build_exact_mem (compile : String → Except String GlobPattern)
    (user : List String) (E : String) (hE : E ∈ IGNORED_FILES ++ user)
    (hG : containsGlobChar E = false) :
    ((buildIgnorePatterns compile user).1).exact_matches.contains E = true :=
  foldl_exact_mem compile E hG _ _ hE

theorem should_ignore_of_exact (ip : IgnorePatterns) (s : String)
    (h : ip.exact_matches.contains s = true) : ip.should_ignore s = true := by
  unfold IgnorePatterns.should_ignore
  rw [h]
  simp

theorem should_ignore_of_glob (ip : IgnorePatterns) (s : String) (G : GlobPattern)
    (hG : G ∈ ip.glob_patterns) (hm : G.matchFn s = true) :
    ip.should_ignore s = true := by
  unfold IgnorePatterns.should_ignore
  split
  · rfl
  · exact List.any_eq_true.mpr ⟨G, hG, hm⟩

/-- Claim C2: for a path under the scan root, if the final segment, the name
of any ancestor directory strictly between the path and the root, or the full
relative path exactly equals a built-in or user-supplied exact-match pattern
(one with no glob metacharacters), then `should_ignore_file` returns true. -/
theorem c2_exact_pattern_ignores
    (compile : String → Except String GlobPattern) (user : List String)
    (sep E : String) (base rel : List String) (hrel : rel ≠ [])
    (hE : E ∈ IGNORED_FILES ++ user) (hG : containsGlobChar E = false)
    (hshape : rel.getLast hrel = E ∨ E ∈ rel.dropLast ∨ pathToString sep rel = E) :
    should_ignore_file sep (base ++ rel) base (buildIgnorePatterns compile user).1 = true := by
  rw [should_ignore_file_eq sep _ base rel hrel]
  have hsh : ((buildIgnorePatterns compile user).1).should_ignore E = true :=
    should_ignore_of_exact _ _ (build_exact_mem compile user E hE hG)
  apply List.any_eq_true.mpr
  refine ⟨E, ?_, hsh⟩
  unfold shapeStrings
  rcases hshape with hleaf | hanc | hfull
  · exact List.mem_append_left _ (hleaf ▸ List.getLast_mem hrel)
  · exact List.mem_append_left _ (List.dropLast_sublist rel |>.subset hanc)
  · exact List.mem_append_right _
      (List.mem_map.mpr ⟨rel, mem_prefixesOf_self rel hrel, hfull⟩)

/-- Witness for C2 at concrete inputs: `node_modules/pkg.js` under the scan
root is ignored because the built-in exact pattern `node_modules` names an
ancestor directory. -/
theorem c2_exact_pattern_ignores_witness :
    should_ignore_file "/" ["root", "node_modules", "pkg.js"] ["root"]
      (buildIgnorePatterns (fun _ => Except.error "no glob") []).1 = true :=
  c2_exact_pattern_ignores (fun _ => Except.error "no glob") [] "/" "node_modules"
    ["root"] ["node_modules", "pkg.js"] (by decide) (by decide) (by decide)
    (Or.inr (Or.inl (by decide)))

/-- Claim C3: for a path under the scan root, (a) if any tested shape string
(the leaf name, an ancestor directory name, the full relative path, or a
rendered relative-path prefix) is matched by a successfully registered glob
pattern, `should_ignore_file` returns true; and (b) if no tested shape string
is matched by any registered exact or glob rule, it returns false. -/
theorem c3_glob_match_and_nonmatch
    (compile : String → Except String GlobPattern) (user : List String)
    (sep : String) (base rel : List String) (hrel : rel ≠ []) :
    (∀ (G : GlobPattern) (s : String),
        G ∈ ((buildIgnorePatterns compile user).1).glob_patterns →
        s ∈ shapeStrings sep rel → G.matchFn s = true →
        should_ignore_file sep (base ++ rel) base (buildIgnorePatterns compile user).1 = true) ∧
    ((∀ s ∈ shapeStrings sep rel,
        ((buildIgnorePatterns compile user).1).should_ignore s = false) →
      should_ignore_file sep (base ++ rel) base (buildIgnorePatterns compile user).1 = false) := by
  constructor
  · intro G s hG hs hm
    rw [should_ignore_file_eq sep _ base rel hrel]
    exact List.any_eq_true.mpr ⟨s, hs, should_ignore_of_glob _ s G hG hm⟩
  · intro hnone
    rw [should_ignore_file_eq sep _ base rel hrel]
    exact List.any_eq_false.mpr (fun s hs => by simp [hnone s hs])

/-- Witness for C3 at concrete inputs: with the built-in rules and a
registered glob matching `*.log`, the glob direction fires on `app.log`, and
`src/lib.rs` (matching no rule) is not ignored. -/
theorem c3_glob_match_and_nonmatch_witness :
    should_ignore_file "/" ["root", "app.log"] ["root"]
      (buildIgnorePatterns
        (fun p => Except.ok ⟨fun s => s == "app.log" && decide (p = "*.log")⟩)
        ["*.log"]).1 = true ∧
    should_ignore_file "/" ["root", "src", "lib.rs"] ["root"]
      (buildIgnorePatterns (fun _ => Except.error "no glob") []).1 = false := by
  constructor
  · exact (c3_glob_match_and_nonmatch
      (fun p => Except.ok ⟨fun s => s == "app.log" && decide (p = "*.log")⟩)
      ["*.log"] "/" ["root"] ["app.log"] (by decide)).1
      ⟨fun s => s == "app.log" && decide ("*.log" = "*.log")⟩ "app.log"
      (by simp [buildIgnorePatterns, IGNORED_FILES, IgnorePatterns.add_pattern,
        IgnorePatterns.new, containsGlobChar, insertSet])
      (by simp [shapeStrings, prefixesOf]) (by decide)
  · exact (c3_glob_match_and_nonmatch (fun _ => Except.error "no glob") []
      "/" ["root"] ["src", "lib.rs"] (by decide)).2 (by decide)

/-- Decoding one UTF-8-encoded character from the front of a byte stream
recovers exactly that character's scalar value and consumes exactly its
encoding. -/
theorem utf8DecodeStep_encode (c : Char) (rest : List Nat) :
    ∃ b0 bs, utf8EncodeChar c = b0 :: bs ∧
      utf8DecodeStep b0 (bs ++ rest) = (some c.toNat, bs.length + 1) := by
  have hv : c.toNat < 0xd800 ∨ (0xdfff < c.toNat ∧ c.toNat < 0x110000) := c.valid
  by_cases h1 : c.toNat < 0x80
  · refine ⟨c.toNat, [], ?_, ?_⟩
    · simp [utf8EncodeChar, h1]
    · simp [utf8DecodeStep, h1]
  · by_cases h2 : c.toNat < 0x800
    · refine ⟨0xC0 + c.toNat / 0x40, [0x80 + c.toNat % 0x40], ?_, ?_⟩
      · simp [utf8EncodeChar, h1, h2]
      · have hc1 : ¬ (0xC0 + c.toNat / 0x40 < 0x80) := by omega
        have hc2 : ¬ (0xC0 + c.toNat / 0x40 < 0xC2) := by omega
        have hc3 : 0xC0 + c.toNat / 0x40 ≤ 0xDF := by omega
        have hc4 : isCont (0x80 + c.toNat % 0x40) = true := by
          simp [isCont]; omega
        simp [utf8DecodeStep, hc1, hc2, hc3, hc4]
        omega
    · by_cases h3 : c.toNat < 0x10000
      · refine ⟨0xE0 + c.toNat / 0x1000,
          [0x80 + c.toNat / 0x40 % 0x40, 0x80 + c.toNat % 0x40], ?_, ?_⟩
        · simp [utf8EncodeChar, h1, h2, h3]
        · have hc1 : ¬ (0xE0 + c.toNat / 0x1000 < 0x80) := by omega
          have hc2 : ¬ (0xE0 + c.toNat / 0x1000 < 0xC2) := by omega
          have hc3 : ¬ (0xE0 + c.toNat / 0x1000 ≤ 0xDF) := by omega
          have hc4 : 0xE0 + c.toNat / 0x1000 ≤ 0xEF := by omega
          have hc5 : valid3b1 (0xE0 + c.toNat / 0x1000)
              (0x80 + c.toNat / 0x40 % 0x40) = true := by
            unfold valid3b1
            simp only [beq_iff_eq, isCont]
            split
            · simp; omega
            · split
              · simp; omega
              · simp; omega
          have hc6 : isCont (0x80 + c.toNat % 0x40) = true := by
            simp [isCont]; omega
          simp [utf8DecodeStep, hc1, hc2, hc3, hc4, hc5, hc6]
          omega
      · refine ⟨0xF0 + c.toNat / 0x40000,
          [0x80 + c.toNat / 0x1000 % 0x40, 0x80 + c.toNat / 0x40 % 0x40,
           0x80 + c.toNat % 0x40], ?_, ?_⟩
        · simp [utf8EncodeChar, h1, h2, h3]
        · have hc1 : ¬ (0xF0 + c.toNat / 0x40000 < 0x80) := by omega
          have hc2 : ¬ (0xF0 + c.toNat / 0x40000 < 0xC2) := by omega
          have hc3 : ¬ (0xF0 + c.toNat / 0x40000 ≤ 0xDF) := by omega
          have hc4 : ¬ (0xF0 + c.toNat / 0x40000 ≤ 0xEF) := by omega
          have hc5 : 0xF0 + c.toNat / 0x40000 ≤ 0xF4 := by omega
          have hc6 : valid4b1 (0xF0 + c.toNat / 0x40000)
              (0x80 + c.toNat / 0x1000 % 0x40) = true := by
            unfold valid4b1
            simp only [beq_iff_eq, isCont]
            split
            · simp; omega
            · split
              · simp; omega
              · simp; omega
          have hc7 : isCont (0x80 + c.toNat / 0x40 % 0x40) = true := by
            simp [isCont]; omega
          have hc8 : isCont (0x80 + c.toNat % 0x40) = true := by
            simp [isCont]; omega
          simp [utf8DecodeStep, hc1, hc2, hc3, hc4, hc5, hc6, hc7, hc8]
          omega

/-- With enough fuel, lossy decoding inverts UTF-8 encoding. -/
theorem lossyGo_encode : ∀ (s : List Char) (fuel : Nat),
    (utf8EncodeList s).length ≤ fuel → lossyGo fuel (utf8EncodeList s) = s := by
  intro s
  induction s with
  | nil =>
    intro fuel _
    cases fuel <;> simp [utf8EncodeList, lossyGo]
  | cons c cs ih =>
    intro fuel hf
    obtain ⟨b0, bs, henc, hstep⟩ := utf8DecodeStep_encode c (utf8EncodeList cs)
    have hlist : utf8EncodeList (c :: cs) = b0 :: (bs ++ utf8EncodeList cs) := by
      simp [utf8EncodeList, List.flatMap_cons, henc]
    rw [hlist] at hf ⊢
    cases fuel with
    | zero => simp at hf
    | succ f =>
      simp only [lossyGo, hstep]
      have hdrop : (bs ++ utf8EncodeList cs).drop (bs.length + 1 - 1)
          = utf8EncodeList cs := by
        simp [List.drop_left]
      rw [hdrop]
      have hfl : (utf8EncodeList cs).length ≤ f := by
        simp at hf
        omega
      simp [charOfStep, Char.ofNat_toNat, ih f hfl]

/-- Lossy UTF-8 decoding is the identity on UTF-8-encoded text. -/
theorem from_utf8_lossy_encode (s : List Char) :
    from_utf8_lossy (utf8EncodeList s) = String.mk s := by
  unfold from_utf8_lossy
  rw [lossyGo_encode s _ (Nat.le_refl _)]

/-- `processItem` on an accepted entry: the record is appended and the
relative path registered. -/
theorem processItem_accept (sep : String) (inspect : List Nat → ContentType)
    (ip : IgnorePatterns) (base rel : List String) (st : LoopState)
    (bytes : List Nat)
    (hig : should_ignore_file sep (base ++ rel) base ip = false)
    (htxt : is_text_file inspect bytes = true) :
    processItem sep inspect ip base st
        (WalkItem.entry (base ++ rel) true (Except.ok bytes)) =
      { st with
        output := st.output ++ "---\n" ++ ("file: " ++ pathToString sep rel ++ "\n")
                  ++ "---\n\n" ++ from_utf8_lossy bytes ++ "\n\n",
        files := insertSet st.files (pathToString sep rel) } := by
  unfold processItem
  simp [hig, htxt, stripPrefixList_append]

/-- `processItem` on a surviving entry whose bytes are not classified as
text: the state is returned unchanged (no record, no file, no log). -/
theorem processItem_not_text (sep : String) (inspect : List Nat → ContentType)
    (ip : IgnorePatterns) (base path : List String) (st : LoopState)
    (bytes : List Nat)
    (hig : should_ignore_file sep path base ip = false)
    (htxt : is_text_file inspect bytes = false) :
    processItem sep inspect ip base st
        (WalkItem.entry path true (Except.ok bytes)) = st := by
  unfold processItem
  simp [hig, htxt]

/-- Claim C4: each accepted file appends to the output document exactly the
record, three-dash delimiter line, `file:` header line, second delimiter
line, one blank line, the decoded file text, then two trailing newlines. -/
theorem c4_record_format (sep : String) (inspect : List Nat → ContentType)
    (ip : IgnorePatterns) (base rel : List String) (st : LoopState)
    (bytes : List Nat)
    (hig : should_ignore_file sep (base ++ rel) base ip = false)
    (htxt : is_text_file inspect bytes = true) :
    (processItem sep inspect ip base st
        (WalkItem.entry (base ++ rel) true (Except.ok bytes))).output =
      st.output ++ ("---\n" ++ "file: " ++ pathToString sep rel ++ "\n"
        ++ "---\n\n" ++ from_utf8_lossy bytes ++ "\n\n") := by
  rw [processItem_accept sep inspect ip base rel st bytes hig htxt]
  simp only [String.append_assoc]

/-- Witness for C4 at concrete inputs. -/
theorem c4_record_format_witness :
    (processItem "/" (fun _ => ContentType.UTF_8)
        (buildIgnorePatterns (fun _ => Except.error "e") []).1 ["root"]
        ⟨"", [], []⟩
        (WalkItem.entry (["root"] ++ ["a.txt"]) true
          (Except.ok [0x68, 0x69]))).output =
      "" ++ ("---\n" ++ "file: " ++ pathToString "/" ["a.txt"] ++ "\n"
        ++ "---\n\n" ++ from_utf8_lossy [0x68, 0x69] ++ "\n\n") :=
  c4_record_format "/" (fun _ => ContentType.UTF_8)
    (buildIgnorePatterns (fun _ => Except.error "e") []).1 ["root"] ["a.txt"]
    ⟨"", [], []⟩ [0x68, 0x69] (by decide) rfl

/-- Claim C6: a surviving file is included exactly when the classifier tags
its bytes UTF-8, UTF-16LE or UTF-16BE; any other tag leaves the state
entirely unchanged (no record, no report entry, no log). -/
theorem c6_text_gate (sep : String) (inspect : List Nat → ContentType)
    (ip : IgnorePatterns) (base rel : List String) (st : LoopState)
    (bytes : List Nat)
    (hig : should_ignore_file sep (base ++ rel) base ip = false) :
    (is_text_file inspect bytes = true ↔
      (inspect bytes = ContentType.UTF_8 ∨ inspect bytes = ContentType.UTF_16LE ∨
       inspect bytes = ContentType.UTF_16BE)) ∧
    (is_text_file inspect bytes = true →
      (processItem sep inspect ip base st
          (WalkItem.entry (base ++ rel) true (Except.ok bytes))).output =
        st.output ++ ("---\n" ++ "file: " ++ pathToString sep rel ++ "\n"
          ++ "---\n\n" ++ from_utf8_lossy bytes ++ "\n\n")) ∧
    (is_text_file inspect bytes = false →
      processItem sep inspect ip base st
        (WalkItem.entry (base ++ rel) true (Except.ok bytes)) = st) := by
  refine ⟨?_, ?_, ?_⟩
  · unfold is_text_file
    cases h : inspect bytes <;> simp [h]
  · intro htxt
    rw [processItem_accept sep inspect ip base rel st bytes hig htxt]
    simp only [String.append_assoc]
  · intro htxt
    exact processItem_not_text sep inspect ip base (base ++ rel) st bytes hig htxt

/-- Witness for C6 at concrete inputs: binary content is skipped with the
state unchanged. -/
theorem c6_text_gate_witness :
    processItem "/" (fun _ => ContentType.BINARY)
        (buildIgnorePatterns (fun _ => Except.error "e") []).1 ["root"]
        ⟨"", [], []⟩
        (WalkItem.entry (["root"] ++ ["img.bin"]) true
          (Except.ok [0, 159, 146, 150])) = ⟨"", [], []⟩ :=
  (c6_text_gate "/" (fun _ => ContentType.BINARY)
    (buildIgnorePatterns (fun _ => Except.error "e") []).1 ["root"] ["img.bin"]
    ⟨"", [], []⟩ [0, 159, 146, 150] (by decide)).2.2 rfl

/-- Claim C8: for an accepted file whose bytes are UTF-8-encoded text, lossy
decoding reproduces that text exactly, and the record embeds it verbatim. -/
theorem c8_utf8_roundtrip (s : List Char) (sep : String)
    (inspect : List Nat → ContentType) (ip : IgnorePatterns)
    (base rel : List String) (st : LoopState)
    (hig : should_ignore_file sep (base ++ rel) base ip = false)
    (htxt : is_text_file inspect (utf8EncodeList s) = true) :
    from_utf8_lossy (utf8EncodeList s) = String.mk s ∧
    (processItem sep inspect ip base st
        (WalkItem.entry (base ++ rel) true (Except.ok (utf8EncodeList s)))).output =
      st.output ++ ("---\n" ++ "file: " ++ pathToString sep rel ++ "\n"
        ++ "---\n\n" ++ String.mk s ++ "\n\n") := by
  refine ⟨from_utf8_lossy_encode s, ?_⟩
  rw [processItem_accept sep inspect ip base rel st (utf8EncodeList s) hig htxt]
  simp only [String.append_assoc, from_utf8_lossy_encode]

/-- Witness for C8 at concrete inputs. -/
theorem c8_utf8_roundtrip_witness :
    from_utf8_lossy (utf8EncodeList ['h', 'i']) = String.mk ['h', 'i'] :=
  (c8_utf8_roundtrip ['h', 'i'] "/" (fun _ => ContentType.UTF_8)
    (buildIgnorePatterns (fun _ => Except.error "e") []).1 ["root"] ["a.txt"]
    ⟨"", [], []⟩ (by decide) rfl).1

/-- Claim C10: bytes tagged UTF-16LE or UTF-16BE are accepted as text, yet the
record embeds their lossy UTF-8 decoding, which differs from the UTF-16
character content (shown on a concrete UTF-16LE file, where NUL bytes survive
into the embedded text). -/
theorem c10_utf16_decoded_as_utf8 (sep : String)
    (inspect : List Nat → ContentType) (ip : IgnorePatterns)
    (base rel : List String) (st : LoopState) (bytes : List Nat)
    (hig : should_ignore_file sep (base ++ rel) base ip = false)
    (h16 : inspect bytes = ContentType.UTF_16LE ∨
           inspect bytes = ContentType.UTF_16BE) :
    is_text_file inspect bytes = true ∧
    (processItem sep inspect ip base st
        (WalkItem.entry (base ++ rel) true (Except.ok bytes))).output =
      st.output ++ ("---\n" ++ "file: " ++ pathToString sep rel ++ "\n"
        ++ "---\n\n" ++ from_utf8_lossy bytes ++ "\n\n") ∧
    from_utf8_lossy [0x68, 0, 0x69, 0] ≠
      String.mk (utf16le_decode [0x68, 0, 0x69, 0]) := by
  have htxt : is_text_file inspect bytes = true := by
    unfold is_text_file
    rcases h16 with h | h <;> rw [h]
  refine ⟨htxt, ?_, by decide⟩
  rw [processItem_accept sep inspect ip base rel st bytes hig htxt]
  simp only [String.append_assoc]

/-- Witness for C10 at concrete inputs: a UTF-16LE-tagged file is accepted. -/
theorem c10_utf16_decoded_as_utf8_witness :
    is_text_file (fun _ => ContentType.UTF_16LE) [0x68, 0, 0x69, 0] = true :=
  (c10_utf16_decoded_as_utf8 "/" (fun _ => ContentType.UTF_16LE)
    (buildIgnorePatterns (fun _ => Except.error "e") []).1 ["root"] ["u.txt"]
    ⟨"", [], []⟩ [0x68, 0, 0x69, 0] (by decide) (Or.inl rfl)).1

/-- Claim C5 is refuted as stated: on a platform whose native separator is a
backslash, the displayed relative path is backslash-joined, not
forward-slash-joined. -/
theorem c5_forward_slash_counterexample :
    (processItem "\\" (fun _ => ContentType.UTF_8)
        (buildIgnorePatterns (fun _ => Except.error "e") []).1 ["root"]
        ⟨"", [], []⟩
        (WalkItem.entry (["root"] ++ ["a", "b.txt"]) true
          (Except.ok [0x78]))).output =
      "---\nfile: a\\b.txt\n---\n\nx\n\n" ∧
    "a\\b.txt" ≠ "a/b.txt" := by
  constructor
  · decide
  · decide

/-- Claim C5 (amended): the relative path shown in the record header and
registered for the end-of-run report is the platform-native rendering of the
relative path, its components joined with the native separator `sep`; it is
forward-slash-joined exactly on platforms whose separator is `/`. -/
theorem c5_native_separator_display (sep : String)
    (inspect : List Nat → ContentType) (ip : IgnorePatterns)
    (base rel : List String) (st : LoopState) (bytes : List Nat)
    (hig : should_ignore_file sep (base ++ rel) base ip = false)
    (htxt : is_text_file inspect bytes = true) :
    processItem sep inspect ip base st
        (WalkItem.entry (base ++ rel) true (Except.ok bytes)) =
      { st with
        output := st.output ++ ("---\n" ++ "file: " ++ pathToString sep rel
          ++ "\n" ++ "---\n\n" ++ from_utf8_lossy bytes ++ "\n\n"),
        files := insertSet st.files (pathToString sep rel) } := by
  rw [processItem_accept sep inspect ip base rel st bytes hig htxt]
  simp only [String.append_assoc]

/-- Witness for the amended C5 at concrete inputs. -/
theorem c5_native_separator_display_witness :
    processItem "/" (fun _ => ContentType.UTF_8)
        (buildIgnorePatterns (fun _ => Except.error "e") []).1 ["root"]
        ⟨"", [], []⟩
        (WalkItem.entry (["root"] ++ ["a", "b.txt"]) true
          (Except.ok [0x78])) =
      { output := "" ++ ("---\n" ++ "file: " ++ pathToString "/" ["a", "b.txt"]
          ++ "\n" ++ "---\n\n" ++ from_utf8_lossy [0x78] ++ "\n\n"),
        files := insertSet [] (pathToString "/" ["a", "b.txt"]),
        logs := [] } :=
  c5_native_separator_display "/" (fun _ => ContentType.UTF_8)
    (buildIgnorePatterns (fun _ => Except.error "e") []).1 ["root"]
    ["a", "b.txt"] ⟨"", [], []⟩ [0x78] (by decide) rfl

/-- Concatenation of a list of record strings, in order. -/
def joinAll : List String → String
  | [] => ""
  | a :: l => a ++ joinAll l

/-- Is an `Except` value a success? -/
def isOkE {α : Type} : Except String α → Bool
  | Except.ok _ => true
  | Except.error _ => false

/-- The output growth of one loop iteration: exactly the record of the item
when it is accepted, nothing otherwise. -/
theorem processItem_output (sep : String) (inspect : List Nat → ContentType)
    (ip : IgnorePatterns) (base : List String) (st : LoopState)
    (item : WalkItem) :
    (processItem sep inspect ip base st item).output =
      st.output ++ (if acceptsItem sep inspect ip base item = true
        then recordOfItem sep base item else "") := by
  cases item with
  | err msg => simp [processItem, acceptsItem]
  | entry path is_file content =>
    cases is_file with
    | false => simp [processItem, acceptsItem]
    | true =>
      cases hig : should_ignore_file sep path base ip with
      | true => simp [processItem, acceptsItem, hig]
      | false =>
        cases content with
        | error e => simp [processItem, acceptsItem, hig]
        | ok bytes =>
          cases htxt : is_text_file inspect bytes with
          | false => simp [processItem, acceptsItem, hig, htxt]
          | true =>
            cases hstrip : stripPrefixList path base with
            | none => simp [processItem, acceptsItem, hig, htxt, hstrip]
            | some rel =>
              simp [processItem, acceptsItem, hig, htxt, hstrip, recordOfItem,
                String.append_assoc]

/-- The whole walk appends, in iteration order, exactly one record per
accepted item. -/
theorem runWalk_output (sep : String) (inspect : List Nat → ContentType)
    (ip : IgnorePatterns) (base : List String) :
    ∀ (items : List WalkItem) (st : LoopState),
      (runWalk sep inspect ip base items st).output =
        st.output ++ joinAll ((items.filter
          (acceptsItem sep inspect ip base)).map (recordOfItem sep base)) := by
  intro items
  induction items with
  | nil => intro st; simp [runWalk, joinAll]
  | cons i rest ih =>
    intro st
    have h1 : runWalk sep inspect ip base (i :: rest) st =
        runWalk sep inspect ip base rest (processItem sep inspect ip base st i) := rfl
    rw [h1, ih, processItem_output]
    cases hacc : acceptsItem sep inspect ip base i with
    | true => simp [hacc, List.filter_cons, joinAll, String.append_assoc]
    | false => simp [hacc, List.filter_cons]

/-- Claim C9: the output document is the concatenation, in iterator order, of
one record per accepted item; and when the iterator yields each path at most
once, the accepted items' paths are pairwise distinct, so no file contributes
two records. -/
theorem c9_order_and_uniqueness (sep : String) (inspect : List Nat → ContentType)
    (ip : IgnorePatterns) (base : List String) (items : List WalkItem)
    (st : LoopState) :
    (runWalk sep inspect ip base items st).output =
      st.output ++ joinAll ((items.filter
        (acceptsItem sep inspect ip base)).map (recordOfItem sep base)) ∧
    ((items.filterMap itemPath).Nodup →
      ((items.filter (acceptsItem sep inspect ip base)).filterMap itemPath).Nodup) := by
  constructor
  · exact runWalk_output sep inspect ip base items st
  · intro hnd
    exact List.Nodup.sublist
      (List.Sublist.filterMap itemPath (List.filter_sublist items)) hnd

/-- Witness for C9 at concrete inputs: two distinct accepted files yield
their two records in order. -/
theorem c9_order_and_uniqueness_witness :
    (runWalk "/" (fun _ => ContentType.UTF_8) IgnorePatterns.new ["root"]
        [WalkItem.entry ["root", "a"] true (Except.ok [0x61]),
         WalkItem.entry ["root", "b"] true (Except.ok [0x62])]
        ⟨"", [], []⟩).output =
      (⟨"", [], []⟩ : LoopState).output ++ joinAll
        (([WalkItem.entry ["root", "a"] true (Except.ok [0x61]),
           WalkItem.entry ["root", "b"] true (Except.ok [0x62])].filter
          (acceptsItem "/" (fun _ => ContentType.UTF_8) IgnorePatterns.new
            ["root"])).map (recordOfItem "/" ["root"])) ∧
    (([WalkItem.entry ["root", "a"] true (Except.ok [0x61]),
       WalkItem.entry ["root", "b"] true (Except.ok [0x62])].filter
        (acceptsItem "/" (fun _ => ContentType.UTF_8) IgnorePatterns.new
          ["root"])).filterMap itemPath).Nodup :=
  ⟨(c9_order_and_uniqueness "/" (fun _ => ContentType.UTF_8) IgnorePatterns.new
      ["root"] _ _).1,
   (c9_order_and_uniqueness "/" (fun _ => ContentType.UTF_8) IgnorePatterns.new
      ["root"] _ ⟨"", [], []⟩).2 (by decide)⟩

/-- Claim C7: a pattern containing a glob metacharacter whose compilation
fails produces exactly a warning and leaves the rule set unchanged, so it
matches nothing afterwards; a pattern with no glob metacharacter is stored as
an exact match, with no warning possible. -/
theorem c7_malformed_glob (compile : String → Except String GlobPattern)
    (ip : IgnorePatterns) (p e : String) :
    (containsGlobChar p = true → compile p = Except.error e →
      IgnorePatterns.add_pattern compile ip p =
        (ip, some ("Invalid glob pattern " ++ p ++ ": " ++ e)) ∧
      (∀ s, ((IgnorePatterns.add_pattern compile ip p).1).should_ignore s =
        ip.should_ignore s)) ∧
    (containsGlobChar p = false →
      IgnorePatterns.add_pattern compile ip p =
        ({ ip with exact_matches := insertSet ip.exact_matches p }, none) ∧
      ((IgnorePatterns.add_pattern compile ip p).1).exact_matches.contains p
        = true) := by
  constructor
  · intro hg herr
    have h : IgnorePatterns.add_pattern compile ip p =
        (ip, some ("Invalid glob pattern " ++ p ++ ": " ++ e)) := by
      simp [IgnorePatterns.add_pattern, hg, herr]
    exact ⟨h, fun s => by rw [h]⟩
  · intro hg
    have h : IgnorePatterns.add_pattern compile ip p =
        ({ ip with exact_matches := insertSet ip.exact_matches p }, none) := by
      simp [IgnorePatterns.add_pattern, hg]
    refine ⟨h, ?_⟩
    rw [h]
    exact insertSet_contains_self _ _

/-- Witness for C7 at concrete inputs: the unbalanced pattern `[` fails to
compile, is reported, and leaves the empty rule set unchanged. -/
theorem c7_malformed_glob_witness :
    IgnorePatterns.add_pattern (fun _ => Except.error "unclosed")
        IgnorePatterns.new "[" =
      (IgnorePatterns.new,
        some ("Invalid glob pattern " ++ "[" ++ ": " ++ "unclosed")) :=
  ((c7_malformed_glob (fun _ => Except.error "unclosed") IgnorePatterns.new
    "[" "unclosed").1 (by decide) rfl).1

/-- Claim C1 is refuted as stated: with argument parsing and clipboard sink
construction both succeeding, a failure of the final clipboard write still
aborts the run (the second `?` in `main`). -/
theorem c1_abort_counterexample :
    mainRun (fun _ => Except.error "e") (fun _ => ContentType.BINARY) "/"
        (Except.ok ⟨["root"], []⟩) (Except.ok ())
        (fun _ => Except.error "clipboard write failed") [] =
      Except.error "clipboard write failed" := rfl

/-- Claim C1 (amended): no error while processing a single file entry aborts
the run — iteration errors, read errors and relative-path failures are each
logged and the loop continues — and only CLI argument parsing failure and
clipboard errors (sink construction failure or failure of the final
clipboard write) can abort the whole run. -/
theorem c1_error_containment (compile : String → Except String GlobPattern)
    (inspect : List Nat → ContentType) (sep : String) (args : Args)
    (clipboard_new : Except String Unit)
    (set_text : String → Except String Unit) (items : List WalkItem) :
    (∀ (msg : String) (st : LoopState) (ip : IgnorePatterns)
        (base : List String),
      processItem sep inspect ip base st (WalkItem.err msg) =
        { st with logs := st.logs ++ ["Error accessing entry: " ++ msg] }) ∧
    (∀ (path base : List String) (e : String) (st : LoopState)
        (ip : IgnorePatterns),
      should_ignore_file sep path base ip = false →
      processItem sep inspect ip base st
          (WalkItem.entry path true (Except.error e)) =
        { st with logs := st.logs ++
            ["Error reading file " ++ pathToString sep path ++ ": " ++ e] }) ∧
    (∀ (path base : List String) (bytes : List Nat) (st : LoopState)
        (ip : IgnorePatterns),
      should_ignore_file sep path base ip = false →
      is_text_file inspect bytes = true →
      stripPrefixList path base = none →
      processItem sep inspect ip base st
          (WalkItem.entry path true (Except.ok bytes)) =
        { st with logs := st.logs ++ ["Error getting relative path"] }) ∧
    (isOkE (mainRun compile inspect sep (Except.ok args) clipboard_new
        set_text items) =
      (isOkE clipboard_new &&
        isOkE (set_text (runWalk sep inspect
          (buildIgnorePatterns compile args.ignore).1 args.path items
          { output := "", files := [],
            logs := (buildIgnorePatterns compile args.ignore).2 }).output))) ∧
    (∀ e, mainRun compile inspect sep (Except.error e) clipboard_new
        set_text items = Except.error e) := by
  refine ⟨?_, ?_, ?_, ?_, ?_⟩
  · intro msg st ip base
    rfl
  · intro path base e st ip hig
    simp [processItem, hig]
  · intro path base bytes st ip hig htxt hstrip
    simp [processItem, hig, htxt, hstrip]
  · cases clipboard_new with
    | error e => simp [mainRun, isOkE]
    | ok u =>
      simp only [mainRun]
      cases hset : set_text (runWalk sep inspect
          (buildIgnorePatterns compile args.ignore).1 args.path items
          { output := "", files := [],
            logs := (buildIgnorePatterns compile args.ignore).2 }).output with
      | error e => simp [hset, isOkE]
      | ok v => simp [hset, isOkE]
  · intro e
    rfl

/-- Witness for the amended C1 at concrete inputs: a read error is logged and
leaves output and report unchanged. -/
theorem c1_error_containment_witness :
    processItem "/" (fun _ => ContentType.UTF_8) IgnorePatterns.new ["root"]
        ⟨"", [], []⟩ (WalkItem.entry ["root", "a.txt"] true
          (Except.error "permission denied")) =
      { (⟨"", [], []⟩ : LoopState) with logs := (⟨"", [], []⟩ : LoopState).logs ++
          ["Error reading file " ++ pathToString "/" ["root", "a.txt"] ++ ": "
            ++ "permission denied"] } :=
  (c1_error_containment (fun _ => Except.error "e")
    (fun _ => ContentType.UTF_8) "/" ⟨["root"], []⟩ (Except.ok ())
    (fun _ => Except.ok ()) []).2.1 ["root", "a.txt"] ["root"]
    "permission denied" ⟨"", [], []⟩ IgnorePatterns.new (by decide)

end CpFs
